import Mathlib

/-!
Verification of the svc worker life-cycle supervisor (github.com/voi-oss/svc).

The repository supervises named workers through registration, ordered
initialization (with optional bounded retry), concurrent run, and coordinated
shutdown, and aggregates worker health on demand.

Shallow embedding notes.  Go errors are modelled by the inductive `GoError`,
with a constructor for wrapping (fmt.Errorf with the w verb), a constructor for
context.Canceled and one for http.ErrServerClosed; a nil Go error is `none` of
`Option GoError`.  A worker is modelled by the outcomes of its life-cycle
methods: `initResults i` is the outcome of the i-th Init call on it (counted
from 0), `runResult` the outcome of Run, `terminateResult` the outcome of
Terminate; the optional Healther capability (worker.go) is `healthy`
(`none` when the worker does not implement it), and an optional Alive probe,
implemented by some example workers of the repository, is `alive`.

The supervisor core itself (file svc.go of the repository: the SVC struct with
AddWorker, AddWorkerWithInitRetry, Run and Shutdown) is not present under src/;
only its tests (svc_test.go), the worker interfaces (worker.go), the options
(options.go) and the internal HTTP server worker use it.  Definitions for that
core are therefore modelled from the spec, and each such definition carries a
doc comment saying so.  Everything else (the WithHealthz ready and live
handlers, the internal HTTP server worker, WithHTTPServer) is translated
directly from the source files named in the doc comments.
-/

/-- Model of a Go error value as relevant to this repository: a plain error
built by fmt.Errorf, a wrapping error (fmt.Errorf with the w verb), the
sentinel context.Canceled, and the sentinel http.ErrServerClosed. -/
inductive GoError where
  | errorf : String → GoError
  | wrap : String → GoError → GoError
  | canceled : GoError
  | serverClosed : GoError
deriving DecidableEq, Repr

/-- Model of errors.Is(err, context.Canceled): true when the error is
context.Canceled or transitively wraps it. -/
def GoError.isCanceled : GoError → Bool
  | .canceled => true
  | .wrap _ e => e.isCanceled
  | _ => false

/-- Model of a worker (worker.go): the Worker interface requires Init, Run and
Terminate; the Healther interface (field `healthy`) is optional, as is an Alive
probe (field `alive`).  A field value `none` for `healthy` or `alive` means the
worker does not implement the capability; `some none` means the probe is
implemented and returns nil; `some (some e)` means it is implemented and
returns the error e.  `initResults i` is the outcome of the i-th Init call. -/
structure Worker where
  initResults : Nat → Option GoError
  runResult : Option GoError
  terminateResult : Option GoError
  healthy : Option (Option GoError)
  alive : Option (Option GoError)

/-- Registration record of the Registry: a unique name, the worker, and an
optional Init retry policy recording maxAttempts (retry.Attempts of the
retry-go library counts total attempts, first call included); the delay
parameters of a retry policy only affect timing and are not modelled. -/
structure Registration where
  name : String
  worker : Worker
  retry : Option Nat

/-- Registry of the supervisor: the ordered list of registrations. -/
abbrev Registry := List Registration

/-- Observable worker-method invocation, used to trace which life-cycle calls
the supervisor performs and in which order. -/
inductive Event where
  | init : String → Event
  | run : String → Event
  | terminate : String → Event
deriving DecidableEq, Repr

/-- Predicate selecting Init invocation events. -/
def Event.isInit : Event → Bool
  | .init _ => true
  | _ => false

/-- Predicate selecting Run invocation events. -/
def Event.isRun : Event → Bool
  | .run _ => true
  | _ => false

/-- Error taxonomy of the supervisor as the spec names it: duplicate
registration name, Init failure after retry exhaustion, fatal Run failure. -/
inductive SvcError where
  | duplicateName : String → SvcError
  | initError : GoError → SvcError
  | runError : GoError → SvcError
deriving DecidableEq, Repr

/-- Modelled from the spec: AddWorker of the supervisor core (svc.go, absent
from src/).  It fails with DuplicateNameError if the name already exists and
otherwise appends the registration in order; it must not invoke any worker
method, so the second component lists the worker-method invocations the call
performs, namely none. -/
def AddWorker (reg : Registry) (name : String) (w : Worker) :
    Except SvcError Registry × List Event :=
  (if reg.any (fun r => r.name == name) then .error (.duplicateName name)
   else .ok (reg ++ [⟨name, w, none⟩]), [])

/-- Modelled from the spec: AddWorkerWithInitRetry of the supervisor core
(svc.go, absent from src/): same as AddWorker plus it stores a retry policy
consulted only by the Initializer. -/
def AddWorkerWithInitRetry (reg : Registry) (name : String) (w : Worker)
    (maxAttempts : Nat) : Except SvcError Registry × List Event :=
  (if reg.any (fun r => r.name == name) then .error (.duplicateName name)
   else .ok (reg ++ [⟨name, w, some maxAttempts⟩]), [])

/-- Number of Init attempts the Initializer may spend on a registration: one
when no retry policy is stored, maxAttempts when one is. -/
def attemptsOf (r : Registration) : Nat :=
  match r.retry with
  | none => 1
  | some n => n

/-- Modelled from the spec: the bounded Init retry loop of the Initializer
(svc.go, absent from src/).  Calls Init of the worker repeatedly, the i-th call
reading `initResults (start + i)`, stopping at the first success or after the
given number of attempts; returns how many attempts were made and the final
outcome.  Zero allowed attempts make no call and fail. -/
def tryInit (w : Worker) (start : Nat) : Nat → Nat × Option GoError
  | 0 => (0, some (GoError.errorf "retry: no attempts allowed"))
  | n + 1 =>
    match w.initResults start with
    | none => (1, none)
    | some e =>
      if n = 0 then (1, some e)
      else
        let p := tryInit w (start + 1) n
        (p.1 + 1, p.2)

/-- Init invocation events a registration contributes: one Init event per
attempt the retry loop makes on it. -/
def initEvsOf (r : Registration) : List Event :=
  List.replicate (tryInit r.worker 0 (attemptsOf r)).1 (Event.init r.name)

/-- Registration whose Init phase succeeds within its allowed attempts. -/
def initOK (r : Registration) : Prop :=
  (tryInit r.worker 0 (attemptsOf r)).2 = none

instance (r : Registration) : Decidable (initOK r) := by
  unfold initOK; infer_instance

/-- Modelled from the spec: the Initializer of the supervisor core (svc.go,
absent from src/).  Walks the remaining registry in order with `inited` the
already-initialized registrations; on an Init failure (after retry exhaustion)
it invokes Terminate on every initialized worker in order and aborts with the
underlying cause.  Returns the invocation trace, the initialized registrations
in order, and the failure if any. -/
def initPhaseAux (inited : List Registration) :
    Registry → List Event × List Registration × Option GoError
  | [] => ([], inited, none)
  | r :: rest =>
    let p := tryInit r.worker 0 (attemptsOf r)
    match p.2 with
    | none =>
      let q := initPhaseAux (inited ++ [r]) rest
      (List.replicate p.1 (Event.init r.name) ++ q.1, q.2)
    | some e =>
      (List.replicate p.1 (Event.init r.name) ++
        inited.map (fun i => Event.terminate i.name), inited, some e)

/-- Initializer entry: walk the whole registry starting with nothing
initialized. -/
def initPhase (reg : Registry) : List Event × List Registration × Option GoError :=
  initPhaseAux [] reg

/-- State of the Runner fatal-error slot together with the list of recorded
Run errors. -/
structure RunnerState where
  fatal : Option GoError
  recorded : List GoError
deriving DecidableEq, Repr

/-- Modelled from the spec: how the Runner (svc.go, absent from src/) handles
the outcome one worker Run reports.  A nil outcome changes nothing; a non-nil
error is always recorded; it becomes the fatal trigger unless it is
cancellation-class (wraps context.Canceled) or a fatal cause is already held
(the slot is write-once, first cause wins). -/
def recordRun (st : RunnerState) (res : Option GoError) : RunnerState :=
  match res with
  | none => st
  | some e =>
    if e.isCanceled then ⟨st.fatal, st.recorded ++ [e]⟩
    else
      match st.fatal with
      | none => ⟨some e, st.recorded ++ [e]⟩
      | some f => ⟨some f, st.recorded ++ [e]⟩

/-- Runner outcome over the reported Run results of all workers. -/
def runRunner (results : List (Option GoError)) : RunnerState :=
  results.foldl recordRun ⟨none, []⟩

/-- Modelled from the spec: the blocking Run entry point of the supervisor
core (svc.go, absent from src/).  It drives the Initializer; on an Init
failure it returns InitError wrapping the cause (the failure trace already
holds the unwinding Terminate calls and no Run call).  Otherwise every
initialized worker has Run invoked, the Runner collects the outcomes, shutdown
terminates every initialized worker, and the entry point returns the first
fatal cause if any. -/
def runService (reg : Registry) : List Event × Option SvcError :=
  let t := initPhase reg
  match t.2.2 with
  | some e => (t.1, some (.initError e))
  | none =>
    let inited := t.2.1
    let fatal := (runRunner (inited.map (fun r => r.worker.runResult))).fatal
    (t.1 ++ inited.map (fun r => Event.run r.name) ++
      inited.map (fun r => Event.terminate r.name),
     fatal.map SvcError.runError)

/-- Supervisor service state as the spec names it; transitions are monotonic
and driven only by the supervisor. -/
inductive ServiceState where
  | created | initializing | running | shuttingDown | terminated
deriving DecidableEq, Repr

/-- Modelled from the spec: one call of the idempotent Shutdown entry point
(svc.go, absent from src/).  The transition guard is an atomic single-fire
check: only from the Running state does the call drive the transition to
ShuttingDown and perform the termination pass (second component true);
from any other state it is a no-op.  Concurrent callers serialize on the
atomic guard, so any interleaving of calls is a sequence of these steps. -/
def shutdownStep (st : ServiceState) : ServiceState × Bool :=
  match st with
  | .running => (.shuttingDown, true)
  | s => (s, false)

/-- Effect of a sequence of n Shutdown calls from a given state: the final
state and how many of the calls performed a termination pass. -/
def shutdownCalls (st : ServiceState) : Nat → ServiceState × Nat
  | 0 => (st, 0)
  | n + 1 =>
    let p := shutdownStep st
    let q := shutdownCalls p.1 n
    (q.1, (if p.2 then 1 else 0) + q.2)

/-- Loop body of the ready handler registered by WithHealthz
(src/options.go lines 177 to 193, identically in src/unnamed/part_002 lines
211 to 222): when the worker implements the Healther capability and its
Healthy probe returns a non-nil error, a pair of the worker name and the
error is appended to the collected errors; otherwise the worker is skipped. -/
def readyStep (errs : List (String × GoError)) (r : Registration) :
    List (String × GoError) :=
  match r.worker.healthy with
  | some (some e) => errs ++ [(r.name, e)]
  | _ => errs

/-- Ready-check error collection of the ready handler registered by
WithHealthz: the loop body applied over all registered workers.  The workers
live in a Go map, so no iteration order is relied on. -/
def readyErrs (ws : Registry) : List (String × GoError) :=
  ws.foldl readyStep []

/-- HTTP status the ready handler responds with: 503 ServiceUnavailable when
the collected error list is non-empty, 200 OK otherwise. -/
def readyStatusCode (ws : Registry) : Nat :=
  if 0 < (readyErrs ws).length then 503 else 200

/-- HTTP status the live handler registered by WithHealthz responds with
(src/options.go lines 173 to 175, identically in src/unnamed/part_002 lines
198 to 202): the handler writes a constant body with status 200 and consults
no worker, so the status is 200 for every worker population. -/
def liveStatusCode (_ws : Registry) : Nat := 200

/-- True when the worker implements the Alive probe and that probe returns a
non-nil error. -/
def aliveFails (w : Worker) : Bool :=
  match w.alive with
  | some (some _) => true
  | _ => false

/-- Statement of claim C3 at a given worker population: the liveness query
aggregates to not-alive (non-200) exactly when some worker implements the
Alive probe and that probe returns a non-nil error. -/
def liveClaim (ws : Registry) : Prop :=
  (liveStatusCode ws ≠ 200 ↔ ∃ r ∈ ws, aliveFails r.worker = true)

instance (ws : Registry) : Decidable (liveClaim ws) := by
  unfold liveClaim; infer_instance

/-- Fixed registration name of the internal HTTP server worker used by
WithHTTPServer (src/options.go line 110). -/
def internalHTTPServerName : String := "internal-http-server"

/-- Run method of the internal HTTP server worker
(src/unnamed/part_005 lines 47 to 54) with the outcome of
http.Server.ListenAndServe supplied as input: the outcome is logged as an
error unless it equals the sentinel http.ErrServerClosed, and the method
returns nil in every case.  The first component records whether an error was
logged, the second the returned error. -/
def httpServerRunResult (listenErr : Option GoError) : Bool × Option GoError :=
  (if listenErr = some GoError.serverClosed then false else true, none)

/-- Worker model of the internal HTTP server (src/unnamed/part_005): Init
stores the logger and returns nil on every call, Run always returns nil
(see httpServerRunResult), Terminate returns the outcome of
http.Server.Shutdown supplied as a parameter, Healthy is implemented and
always returns nil, and no Alive probe is implemented. -/
def httpServerWorker (termResult : Option GoError) : Worker :=
  { initResults := fun _ => none
  , runResult := none
  , terminateResult := termResult
  , healthy := some none
  , alive := none }

/-- WithHTTPServer option (src/options.go lines 107 to 114): registers the
internal HTTP server worker under the fixed name internal-http-server via
AddWorker. -/
def withHTTPServer (termResult : Option GoError) (reg : Registry) :
    Except SvcError Registry × List Event :=
  AddWorker reg internalHTTPServerName (httpServerWorker termResult)

/-- Error returned by the failing mock workers of svc_test.go. -/
def errFailed : GoError := .errorf "failed"

/-- Mock worker whose life-cycle methods all succeed, as in
TestWorkerInitOrder of svc_test.go. -/
def wOK : Worker :=
  ⟨fun _ => none, none, none, none, none⟩

/-- Mock worker of TestSVC_AddWorkerWithInitRetry (first case): Init fails on
the first two calls and succeeds from the third call on. -/
def wFlaky : Worker :=
  ⟨fun i => if i < 2 then some errFailed else none, none, none, none, none⟩

/-- Mock worker of TestSVC_AddWorkerWithInitRetry (second case): Init fails on
every call. -/
def wFailInit : Worker :=
  ⟨fun _ => some errFailed, none, none, none, none⟩

/-- Mock worker of TestContextCanceled in svc_test.go: Run returns an error
built by fmt.Errorf wrapping context.Canceled. -/
def wCancelRun : Worker :=
  ⟨fun _ => none, some (.wrap "stopped" .canceled), none, none, none⟩

/-- Worker implementing the Healther capability with a failing Healthy
probe. -/
def wBadHealthy : Worker :=
  ⟨fun _ => none, none, none, some (some errFailed), none⟩

/-- Worker implementing an Alive probe that reports a failure, as the
dummyWorker of the minimal example in src/unnamed/part_002 does once its
state changes. -/
def wBadAlive : Worker :=
  ⟨fun _ => none, none, none, none,
    some (some (.errorf "service not well, please restart me"))⟩

/-- Registry of TestWorkerInitOrder in svc_test.go: three workers w1, w2, w3
whose life-cycle methods all succeed, registered in that order. -/
def regW123 : Registry :=
  [⟨"w1", wOK, none⟩, ⟨"w2", wOK, none⟩, ⟨"w3", wOK, none⟩]

/-- Worker population of testable property 10 of the spec: w1 without the
readiness capability, w2 implementing it with a failing probe. -/
def regReadyTest : Registry :=
  [⟨"w1", wOK, none⟩, ⟨"w2", wBadHealthy, none⟩]

/-! Helper lemmas. -/

/-- Filtering Init events out of a block of Init events keeps the block. -/
theorem filter_isInit_replicate (k : Nat) (n : String) :
    (List.replicate k (Event.init n)).filter Event.isInit =
      List.replicate k (Event.init n) := by
  rw [List.filter_replicate]
  simp [Event.isInit]

/-- Terminate events contain no Init event. -/
theorem filter_isInit_terminate_map (l : List Registration) :
    (l.map (fun i => Event.terminate i.name)).filter Event.isInit = [] := by
  induction l with
  | nil => rfl
  | cons r t ih => simp [Event.isInit, ih]

/-- Run events contain no Init event. -/
theorem filter_isInit_run_map (l : List Registration) :
    (l.map (fun i => Event.run i.name)).filter Event.isInit = [] := by
  induction l with
  | nil => rfl
  | cons r t ih => simp [Event.isInit, ih]

/-- Init blocks contain no Run event. -/
theorem filter_isRun_replicate (k : Nat) (n : String) :
    (List.replicate k (Event.init n)).filter Event.isRun = [] := by
  rw [List.filter_replicate]
  simp [Event.isRun]

/-- Terminate events contain no Run event. -/
theorem filter_isRun_terminate_map (l : List Registration) :
    (l.map (fun i => Event.terminate i.name)).filter Event.isRun = [] := by
  induction l with
  | nil => rfl
  | cons r t ih => simp [Event.isRun, ih]

/-- Initializer step on a registration whose Init phase succeeds. -/
theorem initPhaseAux_cons_ok (inited : List Registration) (r : Registration)
    (rest : Registry) (h : (tryInit r.worker 0 (attemptsOf r)).2 = none) :
    initPhaseAux inited (r :: rest) =
      (initEvsOf r ++ (initPhaseAux (inited ++ [r]) rest).1,
       (initPhaseAux (inited ++ [r]) rest).2) := by
  simp only [initPhaseAux, initEvsOf]
  rw [h]

/-- Initializer step on a registration whose Init phase fails. -/
theorem initPhaseAux_cons_fail (inited : List Registration) (r : Registration)
    (rest : Registry) (e : GoError)
    (h : (tryInit r.worker 0 (attemptsOf r)).2 = some e) :
    initPhaseAux inited (r :: rest) =
      (initEvsOf r ++ inited.map (fun i => Event.terminate i.name),
       inited, some e) := by
  simp only [initPhaseAux, initEvsOf]
  rw [h]

/-- Initializer over a leading block of registrations that all initialize
successfully: their Init blocks are emitted in order and they accumulate onto
the initialized list. -/
theorem initPhaseAux_append_ok (pre : Registry) (rest : Registry)
    (inited : List Registration) (hpre : ∀ r ∈ pre, initOK r) :
    initPhaseAux inited (pre ++ rest) =
      ((pre.map initEvsOf).flatten ++ (initPhaseAux (inited ++ pre) rest).1,
       (initPhaseAux (inited ++ pre) rest).2) := by
  induction pre generalizing inited with
  | nil => simp
  | cons r t ih =>
    have hr : (tryInit r.worker 0 (attemptsOf r)).2 = none := hpre r (by simp)
    have ht : ∀ x ∈ t, initOK x := fun x hx => hpre x (by simp [hx])
    rw [List.cons_append, initPhaseAux_cons_ok _ _ _ hr, ih _ ht]
    simp [List.append_assoc]

/-- Initializer over a registry whose registrations all initialize
successfully: the trace is the concatenation of the Init blocks and no
failure occurs. -/
theorem initPhaseAux_all_ok (reg : Registry) (inited : List Registration)
    (h : ∀ r ∈ reg, initOK r) :
    initPhaseAux inited reg =
      ((reg.map initEvsOf).flatten, inited ++ reg, none) := by
  have h2 := initPhaseAux_append_ok reg [] inited h
  rw [List.append_nil] at h2
  simpa [initPhaseAux] using h2

/-- Retry loop that succeeds on the attempt of index m (counted from 0) after
failing on every earlier attempt makes exactly m + 1 attempts and succeeds. -/
theorem tryInit_succ (m : Nat) : ∀ (N start : Nat) (w : Worker), m < N →
    (∀ i, i < m → w.initResults (start + i) ≠ none) →
    w.initResults (start + m) = none →
    tryInit w start N = (m + 1, none) := by
  induction m with
  | zero =>
    intro N start w hN _ hsucc
    obtain ⟨n, rfl⟩ : ∃ n, N = n + 1 := ⟨N - 1, by omega⟩
    simp only [tryInit]
    rw [show start + 0 = start from rfl] at hsucc
    rw [hsucc]
  | succ m ih =>
    intro N start w hN hfail hsucc
    obtain ⟨n, rfl⟩ : ∃ n, N = n + 1 := ⟨N - 1, by omega⟩
    have h0 : w.initResults start ≠ none := by
      have := hfail 0 (by omega)
      simpa using this
    obtain ⟨e0, he0⟩ : ∃ e0, w.initResults start = some e0 := by
      cases h : w.initResults start with
      | none => exact absurd h h0
      | some e0 => exact ⟨e0, rfl⟩
    have hrec : tryInit w (start + 1) n = (m + 1, none) := by
      refine ih n (start + 1) w (by omega) ?_ ?_
      · intro i hi
        have := hfail (i + 1) (by omega)
        simpa [Nat.add_assoc, Nat.add_comm 1 i] using this
      · have := hsucc
        simpa [Nat.add_assoc, Nat.add_comm 1 m] using this
    simp only [tryInit]
    rw [he0]
    have hn : ¬ n = 0 := by omega
    simp [hn, hrec]

/-- Retry loop whose every allowed attempt fails makes exactly the allowed
number of attempts and reports the error of the last attempt. -/
theorem tryInit_fail (n : Nat) : ∀ (start : Nat) (w : Worker),
    (∀ i, i < n + 1 → w.initResults (start + i) ≠ none) →
    ∃ e, w.initResults (start + n) = some e ∧
      tryInit w start (n + 1) = (n + 1, some e) := by
  induction n with
  | zero =>
    intro start w hfail
    obtain ⟨e0, he0⟩ : ∃ e0, w.initResults start = some e0 := by
      cases h : w.initResults start with
      | none => exact absurd h (by simpa using hfail 0 (by omega))
      | some e0 => exact ⟨e0, rfl⟩
    refine ⟨e0, by simpa using he0, ?_⟩
    simp only [tryInit]
    rw [he0]
    simp
  | succ n ih =>
    intro start w hfail
    obtain ⟨e0, he0⟩ : ∃ e0, w.initResults start = some e0 := by
      cases h : w.initResults start with
      | none => exact absurd h (by simpa using hfail 0 (by omega))
      | some e0 => exact ⟨e0, rfl⟩
    obtain ⟨e, he, hrec⟩ := ih (start + 1) w (by
      intro i hi
      have := hfail (i + 1) (by omega)
      simpa [Nat.add_assoc, Nat.add_comm 1 i] using this)
    refine ⟨e, ?_, ?_⟩
    · simpa [Nat.add_assoc, Nat.add_comm 1 n] using he
    · have hn : ¬ n + 1 = 0 := by omega
      simp only [tryInit] at hrec ⊢
      rw [he0]
      simp only [if_neg hn]
      rw [hrec]

/-- Run entry point over a registry whose registrations all initialize
successfully: the trace is the Init blocks in order, then the Run calls, then
the shutdown Terminate calls, and the outcome is the first fatal Run cause
if any. -/
theorem runService_ok (reg : Registry) (h : ∀ r ∈ reg, initOK r) :
    runService reg =
      ((reg.map initEvsOf).flatten ++ reg.map (fun r => Event.run r.name) ++
        reg.map (fun r => Event.terminate r.name),
       ((runRunner (reg.map (fun r => r.worker.runResult))).fatal).map
         SvcError.runError) := by
  simp only [runService, initPhase]
  rw [initPhaseAux_all_ok reg [] h]
  simp

/-- Run entry point over a registry whose leading registrations initialize
successfully and whose next registration exhausts its Init attempts: the
trace is the leading Init blocks, the failing Init block, and one Terminate
call per initialized worker in order; the outcome is an InitError and no
later registration is touched. -/
theorem runService_fail (pre : Registry) (rf : Registration) (rest : Registry)
    (e : GoError) (hpre : ∀ r ∈ pre, initOK r)
    (hf : (tryInit rf.worker 0 (attemptsOf rf)).2 = some e) :
    runService (pre ++ rf :: rest) =
      ((pre.map initEvsOf).flatten ++ initEvsOf rf ++
        pre.map (fun r => Event.terminate r.name),
       some (SvcError.initError e)) := by
  simp only [runService, initPhase]
  rw [initPhaseAux_append_ok pre (rf :: rest) [] hpre,
    initPhaseAux_cons_fail _ _ _ _ hf]
  simp [List.append_assoc]

/-- Fatal slot of the Runner after folding a batch of Run outcomes: it is
empty exactly when it started empty and every non-nil outcome of the batch is
cancellation-class. -/
theorem foldl_recordRun_fatal_none (results : List (Option GoError)) :
    ∀ st : RunnerState,
      ((results.foldl recordRun st).fatal = none ↔
        st.fatal = none ∧ ∀ e : GoError, some e ∈ results →
          e.isCanceled = true) := by
  induction results with
  | nil => intro st; simp
  | cons r t ih =>
    intro st
    cases r with
    | none =>
      rw [List.foldl_cons]
      simp only [recordRun]
      rw [ih]
      simp
    | some e =>
      rw [List.foldl_cons]
      by_cases hc : e.isCanceled = true
      · have hstep : recordRun st (some e) = ⟨st.fatal, st.recorded ++ [e]⟩ := by
          simp [recordRun, hc]
        rw [hstep, ih]
        constructor
        · rintro ⟨h1, h2⟩
          refine ⟨h1, ?_⟩
          intro x hx
          rcases List.mem_cons.mp hx with hx | hx
          · cases hx; exact hc
          · exact h2 x hx
        · rintro ⟨h1, h2⟩
          exact ⟨h1, fun x hx => h2 x (List.mem_cons_of_mem _ hx)⟩
      · have hstep : ∃ f, recordRun st (some e) = ⟨some f, st.recorded ++ [e]⟩ := by
          cases hst : st.fatal with
          | none => exact ⟨e, by simp [recordRun, hc, hst]⟩
          | some f => exact ⟨f, by simp [recordRun, hc, hst]⟩
        obtain ⟨f, hstep⟩ := hstep
        rw [hstep, ih]
        simp only [RunnerState.fatal]
        constructor
        · rintro ⟨h1, _⟩
          exact absurd h1 (by simp)
        · rintro ⟨_, h2⟩
          exact absurd (h2 e (List.mem_cons_self _ _)) hc

/-- Recorded errors of the Runner only grow while folding Run outcomes. -/
theorem foldl_recordRun_recorded_mono (results : List (Option GoError)) :
    ∀ (st : RunnerState) (e : GoError), e ∈ st.recorded →
      e ∈ (results.foldl recordRun st).recorded := by
  induction results with
  | nil => intro st e he; simpa using he
  | cons r t ih =>
    intro st e he
    rw [List.foldl_cons]
    refine ih _ e ?_
    cases r with
    | none => simpa [recordRun] using he
    | some x =>
      by_cases hc : x.isCanceled = true
      · simp [recordRun, hc]
        exact Or.inl he
      · cases hst : st.fatal with
        | none => simp [recordRun, hc, hst]; exact Or.inl he
        | some f => simp [recordRun, hc, hst]; exact Or.inl he

/-- Every non-nil Run outcome ends up among the recorded errors of the
Runner. -/
theorem foldl_recordRun_recorded_mem (results : List (Option GoError)) :
    ∀ (st : RunnerState) (e : GoError), some e ∈ results →
      e ∈ (results.foldl recordRun st).recorded := by
  induction results with
  | nil => intro st e he; simp at he
  | cons r t ih =>
    intro st e he
    rcases List.mem_cons.mp he with he | he
    · subst he
      rw [List.foldl_cons]
      refine foldl_recordRun_recorded_mono t _ e ?_
      by_cases hc : e.isCanceled = true
      · simp [recordRun, hc]
      · cases hst : st.fatal with
        | none => simp [recordRun, hc, hst]
        | some f => simp [recordRun, hc, hst]
    · rw [List.foldl_cons]
      exact ih _ e he

/-- Shutdown calls from a state other than Running are no-ops: the state is
unchanged and no termination pass occurs. -/
theorem shutdownCalls_of_ne_running (n : Nat) :
    ∀ st : ServiceState, st ≠ ServiceState.running →
      shutdownCalls st n = (st, 0) := by
  induction n with
  | zero => intro st _; rfl
  | succ n ih =>
    intro st hst
    have hstep : shutdownStep st = (st, false) := by
      cases st with
      | running => exact absurd rfl hst
      | created => rfl
      | initializing => rfl
      | shuttingDown => rfl
      | terminated => rfl
    simp only [shutdownCalls, hstep]
    rw [ih st hst]
    simp

/-- Counting an event built by an injective constructor inside the image of a
name list under that constructor counts the name. -/
theorem count_event_map (f : String → Event) (hf : ∀ a b, f a = f b → a = b)
    (names : List String) (nm : String) :
    ((names.map f).count (f nm)) = names.count nm := by
  induction names with
  | nil => rfl
  | cons a t ih =>
    rw [List.map_cons, List.count_cons, List.count_cons, ih]
    have : (f a == f nm) = (a == nm) := by
      by_cases h : a = nm
      · simp [h]
      · have hne : ¬ f a = f nm := fun hc => h (hf a nm hc)
        simp [h, hne]
    rw [this]

/-- Every event inside the concatenated Init blocks of a registry is an Init
event carrying the name of one of its registrations. -/
theorem mem_initEvs_flatten (rs : Registry) (ev : Event)
    (h : ev ∈ (rs.map initEvsOf).flatten) :
    ∃ r ∈ rs, ev = Event.init r.name := by
  rcases List.mem_flatten.mp h with ⟨block, hb, hev⟩
  rcases List.mem_map.mp hb with ⟨r, hr, rfl⟩
  refine ⟨r, hr, ?_⟩
  exact List.eq_of_mem_replicate hev

/-- Init blocks of registrations whose names all differ from a given name hold
no Init event of that name. -/
theorem count_init_flatten_zero (rs : Registry) (nm : String)
    (h : ∀ r ∈ rs, r.name ≠ nm) :
    ((rs.map initEvsOf).flatten).count (Event.init nm) = 0 := by
  rw [List.count_eq_zero]
  intro hmem
  rcases mem_initEvs_flatten rs _ hmem with ⟨r, hr, heq⟩
  exact h r hr (by injection heq.symm)

/-- Init blocks hold no Terminate event. -/
theorem count_terminate_flatten_zero (rs : Registry) (nm : String) :
    ((rs.map initEvsOf).flatten).count (Event.terminate nm) = 0 := by
  rw [List.count_eq_zero]
  intro hmem
  rcases mem_initEvs_flatten rs _ hmem with ⟨r, _, heq⟩
  exact Event.noConfusion heq

/-- Init blocks hold no Run event. -/
theorem count_run_flatten_zero (rs : Registry) (nm : String) :
    ((rs.map initEvsOf).flatten).count (Event.run nm) = 0 := by
  rw [List.count_eq_zero]
  intro hmem
  rcases mem_initEvs_flatten rs _ hmem with ⟨r, _, heq⟩
  exact Event.noConfusion heq

/-- Run events of a registry hold no Init event. -/
theorem count_init_in_run_map_zero (rs : Registry) (nm : String) :
    (rs.map (fun r => Event.run r.name)).count (Event.init nm) = 0 := by
  rw [List.count_eq_zero]
  intro hmem
  rcases List.mem_map.mp hmem with ⟨r, _, heq⟩
  exact Event.noConfusion heq

/-- Terminate events of a registry hold no Init event. -/
theorem count_init_in_terminate_map_zero (rs : Registry) (nm : String) :
    (rs.map (fun r => Event.terminate r.name)).count (Event.init nm) = 0 := by
  rw [List.count_eq_zero]
  intro hmem
  rcases List.mem_map.mp hmem with ⟨r, _, heq⟩
  exact Event.noConfusion heq

/-- Init blocks of a single registration count as many Init events of its
name as attempts were made. -/
theorem count_init_initEvsOf_self (r : Registration) :
    (initEvsOf r).count (Event.init r.name) =
      (tryInit r.worker 0 (attemptsOf r)).1 := by
  rw [initEvsOf, List.count_replicate]
  simp

/-- Filtering Init events keeps an Init block unchanged. -/
theorem filter_isInit_initEvsOf (r : Registration) :
    (initEvsOf r).filter Event.isInit = initEvsOf r := by
  simp only [initEvsOf]
  exact filter_isInit_replicate _ _

/-- Init events of the Run entry point trace come from the Initializer
alone. -/
theorem runService_filter_init (reg : Registry) :
    (runService reg).1.filter Event.isInit =
      (initPhase reg).1.filter Event.isInit := by
  simp only [runService]
  cases h : (initPhase reg).2.2 with
  | some e => simp [h]
  | none =>
    simp [h, List.filter_append, filter_isInit_run_map, filter_isInit_terminate_map]

/-- Init events of the Initializer trace are exactly the ordered Init blocks
of a leading prefix of the registrations. -/
theorem initPhaseAux_filter_init (reg : Registry) :
    ∀ inited : List Registration, ∃ pre rest : Registry, reg = pre ++ rest ∧
      (initPhaseAux inited reg).1.filter Event.isInit =
        (pre.map initEvsOf).flatten := by
  induction reg with
  | nil => intro inited; exact ⟨[], [], rfl, rfl⟩
  | cons r t ih =>
    intro inited
    cases h : (tryInit r.worker 0 (attemptsOf r)).2 with
    | none =>
      obtain ⟨pre, rest, hsplit, hfilter⟩ := ih (inited ++ [r])
      refine ⟨r :: pre, rest, by rw [List.cons_append, ← hsplit], ?_⟩
      rw [initPhaseAux_cons_ok _ _ _ h]
      simp only [List.filter_append, List.map_cons, List.flatten_cons]
      rw [hfilter, filter_isInit_initEvsOf]
    | some e =>
      refine ⟨[r], t, by simp, ?_⟩
      rw [initPhaseAux_cons_fail _ _ _ _ h]
      simp only [List.filter_append, List.map_cons, List.map_nil,
        List.flatten_cons, List.flatten_nil]
      rw [filter_isInit_terminate_map, filter_isInit_initEvsOf]

/-- Membership in the collected ready-check errors, relative to a starting
accumulator: a pair is collected exactly when it was already in the
accumulator or some registered worker implements the Healther capability
under that name and its probe returns that error. -/
theorem foldl_readyStep_mem (ws : Registry) :
    ∀ (acc : List (String × GoError)) (n : String) (e : GoError),
      ((n, e) ∈ ws.foldl readyStep acc ↔
        (n, e) ∈ acc ∨ ∃ r ∈ ws, r.name = n ∧
          r.worker.healthy = some (some e)) := by
  induction ws with
  | nil => intro acc n e; simp
  | cons r t ih =>
    intro acc n e
    rw [List.foldl_cons, ih]
    cases hh : r.worker.healthy with
    | none =>
      have hstep : readyStep acc r = acc := by simp [readyStep, hh]
      rw [hstep]
      constructor
      · rintro (h | ⟨x, hx, hn, he⟩)
        · exact Or.inl h
        · exact Or.inr ⟨x, List.mem_cons_of_mem _ hx, hn, he⟩
      · rintro (h | ⟨x, hx, hn, he⟩)
        · exact Or.inl h
        · rcases List.mem_cons.mp hx with rfl | hx
          · rw [hh] at he; cases he
          · exact Or.inr ⟨x, hx, hn, he⟩
    | some res =>
      cases res with
      | none =>
        have hstep : readyStep acc r = acc := by simp [readyStep, hh]
        rw [hstep]
        constructor
        · rintro (h | ⟨x, hx, hn, he⟩)
          · exact Or.inl h
          · exact Or.inr ⟨x, List.mem_cons_of_mem _ hx, hn, he⟩
        · rintro (h | ⟨x, hx, hn, he⟩)
          · exact Or.inl h
          · rcases List.mem_cons.mp hx with rfl | hx
            · rw [hh] at he; injection he with he2; cases he2
            · exact Or.inr ⟨x, hx, hn, he⟩
      | some e0 =>
        have hstep : readyStep acc r = acc ++ [(r.name, e0)] := by
          simp [readyStep, hh]
        rw [hstep]
        constructor
        · rintro (h | ⟨x, hx, hn, he⟩)
          · rcases List.mem_append.mp h with h | h
            · exact Or.inl h
            · rcases List.mem_singleton.mp h with h
              injection h with h1 h2
              exact Or.inr ⟨r, List.mem_cons_self _ _, h1.symm ▸ rfl, by
                rw [hh, h2]⟩
          · exact Or.inr ⟨x, List.mem_cons_of_mem _ hx, hn, he⟩
        · rintro (h | ⟨x, hx, hn, he⟩)
          · exact Or.inl (List.mem_append.mpr (Or.inl h))
          · rcases List.mem_cons.mp hx with rfl | hx
            · rw [hh] at he
              injection he with he2
              injection he2 with he3
              refine Or.inl (List.mem_append.mpr (Or.inr ?_))
              rw [List.mem_singleton, ← hn, he3]
            · exact Or.inr ⟨x, hx, hn, he⟩

/-- Filtering Init events keeps concatenated Init blocks unchanged. -/
theorem filter_isInit_initEvs_flatten (rs : Registry) :
    ((rs.map initEvsOf).flatten).filter Event.isInit =
      (rs.map initEvsOf).flatten := by
  refine List.filter_eq_self.mpr ?_
  intro ev hev
  rcases mem_initEvs_flatten rs ev hev with ⟨r, _, rfl⟩
  rfl

/-- Concatenated Init blocks hold no Run event. -/
theorem filter_isRun_initEvs_flatten (rs : Registry) :
    ((rs.map initEvsOf).flatten).filter Event.isRun = [] := by
  refine List.filter_eq_nil_iff.mpr ?_
  intro ev hev
  rcases mem_initEvs_flatten rs ev hev with ⟨r, _, rfl⟩
  simp [Event.isRun]

/-- Membership in the collected ready-check errors: a pair is collected
exactly when some registered worker under that name implements the Healther
capability and its probe returns that error. -/
theorem readyErrs_mem (ws : Registry) (n : String) (e : GoError) :
    ((n, e) ∈ readyErrs ws ↔
      ∃ r ∈ ws, r.name = n ∧ r.worker.healthy = some (some e)) := by
  rw [readyErrs, foldl_readyStep_mem]
  simp

/-! Claim theorems. -/

/-- C1: the Run entry point invokes Init sequentially in exactly registration
order.  The Init events of the trace are the per-registration Init blocks of a
leading prefix of the registry, concatenated in registration order, so every
Init call of a registration finishes before any Init call of a later
registration starts; and when every registration initializes successfully the
prefix is the whole registry. -/
theorem c1_run_inits_in_registration_order (reg : Registry) :
    (∃ pre rest : Registry, reg = pre ++ rest ∧
      (runService reg).1.filter Event.isInit = (pre.map initEvsOf).flatten) ∧
    ((∀ r ∈ reg, initOK r) →
      (runService reg).1.filter Event.isInit = (reg.map initEvsOf).flatten) := by
  constructor
  · obtain ⟨pre, rest, hsplit, hfilter⟩ := initPhaseAux_filter_init reg []
    exact ⟨pre, rest, hsplit, by rw [runService_filter_init]; exact hfilter⟩
  · intro h
    rw [runService_filter_init]
    simp only [initPhase]
    rw [initPhaseAux_all_ok reg [] h]
    exact filter_isInit_initEvs_flatten reg

/-- Witness for C1 at the registry of TestWorkerInitOrder: every registration
initializes successfully and the Init events of the trace are exactly
w1, w2, w3 in registration order. -/
theorem c1_witness :
    (∀ r ∈ regW123, initOK r) ∧
      (runService regW123).1.filter Event.isInit =
        [Event.init "w1", Event.init "w2", Event.init "w3"] := by
  refine ⟨by decide, ?_⟩
  have h := (c1_run_inits_in_registration_order regW123).2 (by decide)
  rw [h]
  rfl

/-- C2: the readiness query skips workers lacking the Healther capability,
collects one (workerName, error) pair per failing probe, and aggregates to
not-ready (HTTP 503 with the collected pairs) exactly when some implemented
probe returns a non-nil error, aggregating to ready (HTTP 200) otherwise,
in particular when no registered worker implements the probe. -/
theorem c2_ready_aggregation (ws : Registry) :
    (readyStatusCode ws = 503 ↔
      ∃ r ∈ ws, ∃ e, r.worker.healthy = some (some e)) ∧
    (readyStatusCode ws = 200 ↔
      ¬ ∃ r ∈ ws, ∃ e, r.worker.healthy = some (some e)) ∧
    (∀ n e, ((n, e) ∈ readyErrs ws ↔
      ∃ r ∈ ws, r.name = n ∧ r.worker.healthy = some (some e))) ∧
    ((∀ r ∈ ws, r.worker.healthy = none) → readyStatusCode ws = 200) := by
  have hkey : (0 < (readyErrs ws).length) ↔
      ∃ r ∈ ws, ∃ e, r.worker.healthy = some (some e) := by
    rw [List.length_pos_iff_exists_mem]
    constructor
    · rintro ⟨⟨n, e⟩, hp⟩
      rcases (readyErrs_mem ws n e).mp hp with ⟨r, hr, _, he⟩
      exact ⟨r, hr, e, he⟩
    · rintro ⟨r, hr, e, he⟩
      exact ⟨(r.name, e), (readyErrs_mem ws r.name e).mpr ⟨r, hr, rfl, he⟩⟩
  have h503 : readyStatusCode ws = 503 ↔ 0 < (readyErrs ws).length := by
    unfold readyStatusCode
    by_cases h : 0 < (readyErrs ws).length <;> simp [h]
  have h200 : readyStatusCode ws = 200 ↔ ¬ 0 < (readyErrs ws).length := by
    unfold readyStatusCode
    by_cases h : 0 < (readyErrs ws).length <;> simp [h]
  refine ⟨h503.trans hkey, h200.trans (not_congr hkey),
    fun n e => readyErrs_mem ws n e, fun hall => ?_⟩
  refine (h200.trans (not_congr hkey)).mpr ?_
  rintro ⟨r, hr, e, he⟩
  rw [hall r hr] at he
  cases he

/-- Witness for C2: with only the probe of w2 failing the readiness query
reports 503 and carries the pair for w2, and with no worker implementing the
probe it reports 200. -/
theorem c2_witness :
    readyStatusCode regReadyTest = 503 ∧
      ("w2", errFailed) ∈ readyErrs regReadyTest ∧
      readyStatusCode [⟨"w1", wOK, none⟩] = 200 := by
  refine ⟨?_, ?_, ?_⟩
  · exact (c2_ready_aggregation regReadyTest).1.mpr
      ⟨⟨"w2", wBadHealthy, none⟩, by simp [regReadyTest], errFailed, rfl⟩
  · exact ((c2_ready_aggregation regReadyTest).2.2.1 "w2" errFailed).mpr
      ⟨⟨"w2", wBadHealthy, none⟩, by simp [regReadyTest], rfl, rfl⟩
  · refine (c2_ready_aggregation [⟨"w1", wOK, none⟩]).2.2.2 ?_
    intro r hr
    rcases List.mem_singleton.mp hr with rfl
    rfl

/-- C3, counterexample: the claim states that the liveness query aggregates
probe results symmetrically to readiness, reporting not-alive exactly when
some worker liveness probe fails; but the live handler registered by
WithHealthz (src/options.go lines 173 to 175) replies with a constant 200 and
consults no worker, so a population holding one worker with a failing Alive
probe still reports alive, refuting the claim. -/
theorem c3_counterexample :
    ¬ liveClaim [⟨"dummy-worker", wBadAlive, none⟩] := by
  decide

/-- C3 as amended: the liveness query does not consult any worker probe; it
replies 200 with a static body for every worker population, so a worker is
treated as always alive whether or not it implements a liveness probe. -/
theorem c3_amended_live_always_200 (ws : Registry) : liveStatusCode ws = 200 :=
  rfl

/-- Counting a Run event inside the Run calls of a registry counts the
registration name. -/
theorem count_run_map_eq (rs : Registry) (nm : String) :
    (rs.map (fun r => Event.run r.name)).count (Event.run nm) =
      (rs.map Registration.name).count nm := by
  rw [show rs.map (fun r => Event.run r.name) =
      (rs.map Registration.name).map Event.run by rw [List.map_map]; rfl]
  exact count_event_map Event.run (fun a b h => by injection h) _ nm

/-- Counting a Terminate event inside the Terminate calls of a registry
counts the registration name. -/
theorem count_terminate_map_eq (rs : Registry) (nm : String) :
    (rs.map (fun r => Event.terminate r.name)).count (Event.terminate nm) =
      (rs.map Registration.name).count nm := by
  rw [show rs.map (fun r => Event.terminate r.name) =
      (rs.map Registration.name).map Event.terminate by rw [List.map_map]; rfl]
  exact count_event_map Event.terminate (fun a b h => by injection h) _ nm

/-- Terminate calls hold no Run event. -/
theorem count_run_in_terminate_map_zero (rs : Registry) (nm : String) :
    (rs.map (fun r => Event.terminate r.name)).count (Event.run nm) = 0 := by
  rw [List.count_eq_zero]
  intro hmem
  rcases List.mem_map.mp hmem with ⟨r, _, heq⟩
  exact Event.noConfusion heq

/-- Run calls hold no Terminate event. -/
theorem count_terminate_in_run_map_zero (rs : Registry) (nm : String) :
    (rs.map (fun r => Event.run r.name)).count (Event.terminate nm) = 0 := by
  rw [List.count_eq_zero]
  intro hmem
  rcases List.mem_map.mp hmem with ⟨r, _, heq⟩
  exact Event.noConfusion heq

/-- Registration names all different from a name count it zero times. -/
theorem count_name_zero (rs : Registry) (nm : String)
    (h : ∀ r ∈ rs, r.name ≠ nm) :
    (rs.map Registration.name).count nm = 0 := by
  rw [List.count_eq_zero]
  intro hmem
  rcases List.mem_map.mp hmem with ⟨r, hr, heq⟩
  exact h r hr heq

/-- C4: a worker registered with a retry policy of maxAttempts N whose Init
fails on its first m calls and succeeds on call m + 1 with m + 1 at most N
receives exactly m + 1 Init invocations, and the service proceeds to the Run
phase with no startup failure: no InitError is reported and the worker Run is
invoked exactly once (the surrounding registrations are assumed to initialize
successfully and to carry other names). -/
theorem c4_init_retry_success (pre rest : Registry) (nm : String) (w : Worker)
    (N m : Nat) (hmN : m < N)
    (hfail : ∀ i, i < m → w.initResults i ≠ none)
    (hsucc : w.initResults m = none)
    (hpre : ∀ r ∈ pre, initOK r) (hrest : ∀ r ∈ rest, initOK r)
    (hfresh : ∀ r ∈ pre ++ rest, r.name ≠ nm) :
    (∀ e, (runService (pre ++ ⟨nm, w, some N⟩ :: rest)).2 ≠
      some (SvcError.initError e)) ∧
    (runService (pre ++ ⟨nm, w, some N⟩ :: rest)).1.count (Event.init nm) =
      m + 1 ∧
    (runService (pre ++ ⟨nm, w, some N⟩ :: rest)).1.count (Event.run nm) =
      1 := by
  have htry : tryInit w 0 N = (m + 1, none) := by
    refine tryInit_succ m N 0 w hmN ?_ ?_
    · intro i hi
      simpa using hfail i hi
    · simpa using hsucc
  have hmid : initOK ⟨nm, w, some N⟩ := by
    show (tryInit w 0 N).2 = none
    rw [htry]
  have hall : ∀ r ∈ pre ++ ⟨nm, w, some N⟩ :: rest, initOK r := by
    intro r hr
    rcases List.mem_append.mp hr with h | h
    · exact hpre r h
    · rcases List.mem_cons.mp h with rfl | h
      · exact hmid
      · exact hrest r h
  have hpref : ∀ r ∈ pre, r.name ≠ nm :=
    fun r hr => hfresh r (List.mem_append.mpr (Or.inl hr))
  have hrestf : ∀ r ∈ rest, r.name ≠ nm :=
    fun r hr => hfresh r (List.mem_append.mpr (Or.inr hr))
  have hmidcount : (initEvsOf ⟨nm, w, some N⟩).count (Event.init nm) =
      m + 1 := by
    show (List.replicate (tryInit w 0 N).1 (Event.init nm)).count
      (Event.init nm) = m + 1
    rw [htry, List.count_replicate]
    simp
  refine ⟨?_, ?_, ?_⟩
  · intro e
    rw [runService_ok _ hall]
    cases hfa : (runRunner ((pre ++ ⟨nm, w, some N⟩ :: rest).map
        (fun r => r.worker.runResult))).fatal <;> simp [hfa]
  · rw [runService_ok _ hall]
    simp only [List.map_append, List.map_cons, List.flatten_append,
      List.flatten_cons, List.count_append]
    rw [count_init_flatten_zero pre nm hpref,
      count_init_flatten_zero rest nm hrestf, hmidcount,
      count_init_in_run_map_zero, count_init_in_terminate_map_zero]
    simp [List.count_cons, count_init_in_run_map_zero rest nm,
      count_init_in_terminate_map_zero rest nm]
  · rw [runService_ok _ hall]
    simp only [List.map_append, List.map_cons, List.flatten_append,
      List.flatten_cons, List.count_append]
    have hmidrun : (initEvsOf ⟨nm, w, some N⟩).count (Event.run nm) = 0 := by
      show (List.replicate (tryInit w 0 N).1 (Event.init nm)).count
        (Event.run nm) = 0
      rw [List.count_replicate]
      simp
    rw [count_run_flatten_zero pre nm, count_run_flatten_zero rest nm,
      hmidrun, count_run_in_terminate_map_zero, count_run_map_eq]
    simp [List.count_append, List.count_cons,
      count_name_zero pre nm hpref, count_name_zero rest nm hrestf]
    rw [count_run_map_eq rest nm, count_name_zero rest nm hrestf,
      count_run_in_terminate_map_zero rest nm]

/-- Witness for C4 at the first case of TestSVC_AddWorkerWithInitRetry: a
worker whose Init fails twice then succeeds, registered with maxAttempts 10,
is initialized with exactly 3 Init calls and its Run is invoked. -/
theorem c4_witness :
    (2 < 10 ∧ (∀ i, i < 2 → wFlaky.initResults i ≠ none) ∧
      wFlaky.initResults 2 = none) ∧
    (∀ e, (runService [⟨"test", wFlaky, some 10⟩]).2 ≠
      some (SvcError.initError e)) ∧
    (runService [⟨"test", wFlaky, some 10⟩]).1.count (Event.init "test") = 3 ∧
    (runService [⟨"test", wFlaky, some 10⟩]).1.count (Event.run "test") = 1 := by
  refine ⟨⟨by decide, by decide, by decide⟩, ?_⟩
  have h := c4_init_retry_success [] [] "test" wFlaky 10 2 (by decide)
    (by decide) (by decide) (by simp) (by simp) (by simp)
  simpa using h

/-- C5: when the Init of a registration exhausts all of its allowed attempts
(one with no retry policy, maxAttempts with one), startup aborts: the Run
entry point reports an InitError wrapping the error of the last attempt, the
trace ends with exactly one Terminate per previously initialized worker in
registration order, the failing worker received exactly maxAttempts Init
calls, and Run is never invoked for any worker. -/
theorem c5_init_failure_unwinds (pre rest : Registry) (rf : Registration)
    (hpre : ∀ r ∈ pre, initOK r)
    (hA : 1 ≤ attemptsOf rf)
    (hfail : ∀ i, i < attemptsOf rf → rf.worker.initResults i ≠ none)
    (hnodup : (pre.map Registration.name).Nodup)
    (hfresh : ∀ r ∈ pre, r.name ≠ rf.name) :
    ∃ e, runService (pre ++ rf :: rest) =
        ((pre.map initEvsOf).flatten ++ initEvsOf rf ++
          pre.map (fun r => Event.terminate r.name),
         some (SvcError.initError e)) ∧
      (runService (pre ++ rf :: rest)).1.filter Event.isRun = [] ∧
      (runService (pre ++ rf :: rest)).1.count (Event.init rf.name) =
        attemptsOf rf ∧
      (∀ n ∈ pre.map Registration.name,
        (runService (pre ++ rf :: rest)).1.count (Event.terminate n) = 1) := by
  obtain ⟨n, hn⟩ : ∃ n, attemptsOf rf = n + 1 := ⟨attemptsOf rf - 1, by omega⟩
  obtain ⟨e, _, htry⟩ := tryInit_fail n 0 rf.worker (by
    intro i hi
    have := hfail i (by omega)
    simpa using this)
  have hf2 : (tryInit rf.worker 0 (attemptsOf rf)).2 = some e := by
    rw [hn, htry]
  have hf1 : (tryInit rf.worker 0 (attemptsOf rf)).1 = attemptsOf rf := by
    rw [hn, htry]
  have htrace := runService_fail pre rf rest e hpre hf2
  refine ⟨e, htrace, ?_, ?_, ?_⟩
  · rw [htrace]
    simp only [List.filter_append]
    rw [filter_isRun_initEvs_flatten, filter_isRun_terminate_map]
    have : (initEvsOf rf).filter Event.isRun = [] := by
      show (List.replicate (tryInit rf.worker 0 (attemptsOf rf)).1
        (Event.init rf.name)).filter Event.isRun = []
      exact filter_isRun_replicate _ _
    rw [this]
    rfl
  · rw [htrace]
    simp only [List.count_append]
    rw [count_init_flatten_zero pre rf.name hfresh,
      count_init_in_terminate_map_zero, count_init_initEvsOf_self, hf1]
    omega
  · intro nm hmem
    rw [htrace]
    simp only [List.count_append]
    rw [count_terminate_flatten_zero, count_terminate_map_eq]
    have hmid : (initEvsOf rf).count (Event.terminate nm) = 0 := by
      show (List.replicate (tryInit rf.worker 0 (attemptsOf rf)).1
        (Event.init rf.name)).count (Event.terminate nm) = 0
      rw [List.count_replicate]
      simp
    rw [hmid, List.count_eq_one_of_mem hnodup hmem]

/-- Witness for C5: with w1 initializing successfully and a second worker
whose Init always fails registered with no retry policy, startup reports an
InitError, no Run event occurs, the failing worker received exactly one Init
call, and w1 received exactly one Terminate call. -/
theorem c5_witness :
    ∃ e, (runService ([⟨"w1", wOK, none⟩] ++ ⟨"bad", wFailInit, none⟩ :: [])).2 =
        some (SvcError.initError e) ∧
      (runService ([⟨"w1", wOK, none⟩] ++
        ⟨"bad", wFailInit, none⟩ :: [])).1.filter Event.isRun = [] ∧
      (runService ([⟨"w1", wOK, none⟩] ++
        ⟨"bad", wFailInit, none⟩ :: [])).1.count (Event.init "bad") = 1 ∧
      (runService ([⟨"w1", wOK, none⟩] ++
        ⟨"bad", wFailInit, none⟩ :: [])).1.count (Event.terminate "w1") = 1 := by
  obtain ⟨e, h1, h2, h3, h4⟩ := c5_init_failure_unwinds [⟨"w1", wOK, none⟩] []
    ⟨"bad", wFailInit, none⟩ (by decide) (by decide) (by decide)
    (by simp) (by decide)
  refine ⟨e, ?_, h2, h3, h4 "w1" (by simp)⟩
  rw [h1]

/-- C6: AddWorker fails with DuplicateNameError exactly when the name is
already registered, otherwise appends the registration at the end preserving
order, and in either case invokes no worker method: the list of worker-method
invocations it performs is empty, so in the duplicate case the failure occurs
before any Init call for either registration. -/
theorem c6_addworker_unique (reg : Registry) (nm : String) (w : Worker) :
    ((AddWorker reg nm w).2 = []) ∧
    (nm ∈ reg.map Registration.name →
      AddWorker reg nm w = (.error (.duplicateName nm), [])) ∧
    (nm ∉ reg.map Registration.name →
      AddWorker reg nm w = (.ok (reg ++ [⟨nm, w, none⟩]), [])) := by
  have hany : reg.any (fun r => r.name == nm) = true ↔
      nm ∈ reg.map Registration.name := by
    rw [List.any_eq_true]
    constructor
    · rintro ⟨r, hr, hbeq⟩
      exact List.mem_map.mpr ⟨r, hr, by simpa using hbeq⟩
    · intro h
      rcases List.mem_map.mp h with ⟨r, hr, heq⟩
      exact ⟨r, hr, by simp [heq]⟩
  refine ⟨rfl, ?_, ?_⟩
  · intro h
    have := hany.mpr h
    simp [AddWorker, this]
  · intro h
    have : reg.any (fun r => r.name == nm) = false := by
      rcases Bool.eq_false_or_eq_true (reg.any (fun r => r.name == nm)) with
        hb | hb
      · exact absurd (hany.mp hb) h
      · exact hb
    simp [AddWorker, this]

/-- Witness for C6: registering a second worker under the already-taken name
dup fails with DuplicateNameError while a fresh name appends in order; no
worker method is invoked either way. -/
theorem c6_witness :
    ((AddWorker [⟨"dup", wOK, none⟩] "dup" wFailInit).2 = []) ∧
    ("dup" ∈ ([⟨"dup", wOK, none⟩] : Registry).map Registration.name ∧
      AddWorker [⟨"dup", wOK, none⟩] "dup" wFailInit =
        (.error (.duplicateName "dup"), [])) ∧
    ("fresh" ∉ ([⟨"dup", wOK, none⟩] : Registry).map Registration.name ∧
      AddWorker [⟨"dup", wOK, none⟩] "fresh" wFailInit =
        (.ok ([⟨"dup", wOK, none⟩] ++ [⟨"fresh", wFailInit, none⟩]), [])) := by
  refine ⟨(c6_addworker_unique [⟨"dup", wOK, none⟩] "dup" wFailInit).1,
    ⟨by decide, ?_⟩, ⟨by decide, ?_⟩⟩
  · exact (c6_addworker_unique [⟨"dup", wOK, none⟩] "dup" wFailInit).2.1
      (by decide)
  · exact (c6_addworker_unique [⟨"dup", wOK, none⟩] "fresh" wFailInit).2.2
      (by decide)

/-- C7: a non-nil Run error becomes the fatal shutdown trigger unless it is
cancellation-class (wraps context.Canceled); a cancellation-class error is
recorded but not escalated, the fatal slot stays empty exactly when every
reported error is cancellation-class, every non-nil outcome is recorded, and
a run entry whose sole worker returns a cancellation-class error completes
without a fatal outcome. -/
theorem c7_run_error_fatal_unless_canceled :
    (∀ e : GoError, e.isCanceled = false →
      runRunner [some e] = ⟨some e, [e]⟩) ∧
    (∀ e : GoError, e.isCanceled = true →
      runRunner [some e] = ⟨none, [e]⟩) ∧
    (∀ results : List (Option GoError),
      ((runRunner results).fatal = none ↔
        ∀ e : GoError, some e ∈ results → e.isCanceled = true)) ∧
    (∀ (results : List (Option GoError)) (e : GoError), some e ∈ results →
      e ∈ (runRunner results).recorded) ∧
    (∀ (nm : String) (w : Worker) (e : GoError), w.initResults 0 = none →
      w.runResult = some e → e.isCanceled = true →
      (runService [⟨nm, w, none⟩]).2 = none) := by
  refine ⟨?_, ?_, ?_, ?_, ?_⟩
  · intro e he
    simp [runRunner, recordRun, he]
  · intro e he
    simp [runRunner, recordRun, he]
  · intro results
    rw [runRunner, foldl_recordRun_fatal_none]
    simp
  · intro results e hmem
    exact foldl_recordRun_recorded_mem results _ e hmem
  · intro nm w e hinit hrun hc
    have hall : ∀ r ∈ [(⟨nm, w, none⟩ : Registration)], initOK r := by
      intro r hr
      rcases List.mem_singleton.mp hr with rfl
      show (tryInit w 0 1).2 = none
      simp only [tryInit]
      rw [hinit]
    rw [runService_ok _ hall]
    have hfat : (runRunner ([(⟨nm, w, none⟩ : Registration)].map
        (fun r => r.worker.runResult))).fatal = none := by
      rw [runRunner, foldl_recordRun_fatal_none]
      refine ⟨rfl, ?_⟩
      intro x hx
      simp only [List.map_cons, List.map_nil] at hx
      rcases List.mem_singleton.mp hx with hx2
      rw [hrun] at hx2
      injection hx2 with hx3
      rw [← hx3] at hc
      exact hc
    rw [hfat]
    rfl

/-- Witness for C7 at the scenario of TestContextCanceled: a sole worker
whose Run returns an error wrapping context.Canceled yields no fatal outcome,
while a plain error is escalated to the fatal slot. -/
theorem c7_witness :
    runRunner [some (GoError.wrap "stopped" GoError.canceled)] =
        ⟨none, [GoError.wrap "stopped" GoError.canceled]⟩ ∧
      runRunner [some errFailed] = ⟨some errFailed, [errFailed]⟩ ∧
      (runService [⟨"dummy-worker", wCancelRun, none⟩]).2 = none := by
  refine ⟨?_, ?_, ?_⟩
  · exact c7_run_error_fatal_unless_canceled.2.1 _ (by decide)
  · exact c7_run_error_fatal_unless_canceled.1 _ (by decide)
  · exact c7_run_error_fatal_unless_canceled.2.2.2.2 "dummy-worker"
      wCancelRun (GoError.wrap "stopped" GoError.canceled) rfl rfl (by decide)

/-- C8: the Shutdown entry point is idempotent: starting from the Running
state, any positive number of calls drives exactly one transition to
ShuttingDown and exactly one termination pass, and calls in any other state
do nothing.  Each call acts through the atomic single-fire guard, so an
arbitrary interleaving of concurrent callers is a sequence of these calls. -/
theorem c8_shutdown_idempotent (n : Nat) :
    shutdownCalls ServiceState.running (n + 1) =
      (ServiceState.shuttingDown, 1) ∧
    (∀ st, st ≠ ServiceState.running → shutdownCalls st n = (st, 0)) := by
  constructor
  · simp only [shutdownCalls, shutdownStep]
    rw [shutdownCalls_of_ne_running n ServiceState.shuttingDown (by decide)]
    simp
  · exact fun st h => shutdownCalls_of_ne_running n st h

/-- Witness for C8: two calls from Running cause one termination pass, and
two calls after the transition cause none. -/
theorem c8_witness :
    shutdownCalls ServiceState.running 2 = (ServiceState.shuttingDown, 1) ∧
      ServiceState.shuttingDown ≠ ServiceState.running ∧
      shutdownCalls ServiceState.shuttingDown 2 =
        (ServiceState.shuttingDown, 0) := by
  refine ⟨(c8_shutdown_idempotent 1).1, by decide, ?_⟩
  exact (c8_shutdown_idempotent 2).2 ServiceState.shuttingDown (by decide)

/-- C9: the Run method of the internal HTTP server worker returns nil for
every outcome of ListenAndServe, logging the outcome as an error exactly when
it is not http.ErrServerClosed; its returned nil leaves the Runner state and
fatal slot untouched, so a failure of the internal HTTP server can never be
the fatal run error and never by itself triggers shutdown. -/
theorem c9_http_server_run_returns_nil (r : Option GoError) :
    (httpServerRunResult r).2 = none ∧
    ((httpServerRunResult r).1 = false ↔ r = some GoError.serverClosed) ∧
    (∀ st : RunnerState, recordRun st (httpServerRunResult r).2 = st) ∧
    (∀ results : List (Option GoError),
      (runRunner (results ++ [(httpServerRunResult r).2])).fatal =
        (runRunner results).fatal) := by
  refine ⟨rfl, ?_, fun st => rfl, ?_⟩
  · unfold httpServerRunResult
    by_cases h : r = some GoError.serverClosed <;> simp [h]
  · intro results
    rw [runRunner, runRunner, List.foldl_append]
    rfl

/-- Witness for C9: a bind failure of ListenAndServe (port already in use) is
logged but the returned error is still nil. -/
theorem c9_witness :
    (httpServerRunResult (some (GoError.errorf "port already bound"))).2 =
        none ∧
      ¬ (httpServerRunResult
          (some (GoError.errorf "port already bound"))).1 = false := by
  refine ⟨(c9_http_server_run_returns_nil _).1, fun h => ?_⟩
  have := (c9_http_server_run_returns_nil
    (some (GoError.errorf "port already bound"))).2.1.mp h
  exact absurd this (by decide)

/-- C10: applying WithHTTPServer registers the internal HTTP server worker
under the fixed name internal-http-server through AddWorker, so registering a
user worker under that same name afterwards fails with DuplicateNameError;
and the Healthy probe of the internal worker always returns nil, so its
presence never changes the collected readiness errors. -/
theorem c10_with_http_server (t : Option GoError) (reg : Registry)
    (w2 : Worker) :
    (internalHTTPServerName ∉ reg.map Registration.name →
      withHTTPServer t reg =
        (.ok (reg ++ [⟨internalHTTPServerName, httpServerWorker t, none⟩]),
          []) ∧
      AddWorker (reg ++ [⟨internalHTTPServerName, httpServerWorker t, none⟩])
          internalHTTPServerName w2 =
        (.error (.duplicateName internalHTTPServerName), [])) ∧
    (httpServerWorker t).healthy = some none ∧
    (∀ (pre post : Registry) (rp : Option Nat),
      readyErrs (pre ++ ⟨internalHTTPServerName, httpServerWorker t, rp⟩ ::
        post) = readyErrs (pre ++ post)) := by
  refine ⟨?_, rfl, ?_⟩
  · intro h
    constructor
    · have hany : reg.any (fun r => r.name == internalHTTPServerName) =
          false := by
        rcases Bool.eq_false_or_eq_true
          (reg.any (fun r => r.name == internalHTTPServerName)) with hb | hb
        · rcases List.any_eq_true.mp hb with ⟨r, hr, hbeq⟩
          exact absurd (List.mem_map.mpr ⟨r, hr, by simpa using hbeq⟩) h
        · exact hb
      simp [withHTTPServer, AddWorker, hany]
    · have hlast : ((⟨internalHTTPServerName, httpServerWorker t, none⟩ :
          Registration).name == internalHTTPServerName) = true := by simp
      simp [AddWorker, List.any_append, hlast]
  · intro pre post rp
    rw [readyErrs, readyErrs, List.foldl_append, List.foldl_append,
      List.foldl_cons]
    rw [show readyStep (pre.foldl readyStep []) ⟨internalHTTPServerName,
      httpServerWorker t, rp⟩ = pre.foldl readyStep [] from rfl]

/-- Witness for C10: starting from an empty registry, WithHTTPServer registers
the internal worker, a user worker under the same name then collides, the
internal Healthy probe returns nil, and the internal worker contributes
nothing to the readiness errors of a population that also holds a failing
worker. -/
theorem c10_witness :
    (internalHTTPServerName ∉ ([] : Registry).map Registration.name) ∧
      withHTTPServer none [] =
        (.ok [⟨internalHTTPServerName, httpServerWorker none, none⟩], []) ∧
      AddWorker [⟨internalHTTPServerName, httpServerWorker none, none⟩]
          internalHTTPServerName wOK =
        (.error (.duplicateName internalHTTPServerName), []) ∧
      (httpServerWorker none).healthy = some none ∧
      readyErrs [⟨internalHTTPServerName, httpServerWorker none, some 3⟩,
          ⟨"w2", wBadHealthy, none⟩] =
        readyErrs [⟨"w2", wBadHealthy, none⟩] := by
  obtain ⟨h1, h2, h3⟩ := c10_with_http_server none [] wOK
  refine ⟨by simp, ?_, ?_, h2, ?_⟩
  · exact (h1 (by simp)).1
  · exact (h1 (by simp)).2
  · exact h3 [] [⟨"w2", wBadHealthy, none⟩] (some 3)
